import Mathlib

/-!
Verification development for the libtins PDU codec core.

The definitions below are a shallow embedding of the repository sources:
`src/loopback.cpp` (the Loopback / DLT_NULL PDU), the DHCP class header
(option list, pdu_type, generic scalar search), and the 802.11 beacon
codec exercised by `tests/src/dot11/beacon.cpp`.  Byte buffers are lists
of `Fin 256`; multi-byte machine integers are decoded and encoded in
little-endian order, which models the host byte order of the reference
platform (the spec fixes family value 2 to the wire bytes 02 00 00 00).
-/

namespace Tins

/-- A wire byte. -/
abbrev Byte := Fin 256

/-- Little-endian decoding of a byte list into a natural number.  Models
reading a host-order machine integer from memory, as the C++ code does with
a reinterpret_cast load. -/
def fromLE : List Byte → Nat
  | [] => 0
  | b :: bs => b.val + 256 * fromLE bs

/-- Little-endian encoding of a natural number into `n` bytes.  Models the
memory image of a host-order machine integer store. -/
def toLE : Nat → Nat → List Byte
  | _, 0 => []
  | v, n + 1 => ⟨v % 256, Nat.mod_lt _ (by decide)⟩ :: toLE (v / 256) n

/-- Byte-wise store of the `n`-byte little-endian image of `v` into `buf`
starting at index `pos`.  Models an in-place machine integer store into a
caller-provided buffer. -/
def storeLE : List Byte → Nat → Nat → Nat → List Byte
  | buf, _, _, 0 => buf
  | buf, pos, v, n + 1 =>
      storeLE (buf.set pos ⟨v % 256, Nat.mod_lt _ (by decide)⟩) (pos + 1) (v / 256) n

/-- PF_INET on the reference platform (Linux). -/
def PF_INET : Nat := 2

/-- PF_LLC on the reference platform (Linux). -/
def PF_LLC : Nat := 26

/-- Modelled from the spec: the IPv4 PDU implementation is not under src/.
Only its acceptance condition matters here: per the spec, every byte-buffer
constructor fails with BufferTooShort when `total_sz` is below the minimum
header, and the IPv4 fixed header (RFC 791) is 20 bytes.  The accepted
bytes are retained opaquely. -/
structure IP where
  bytes : List Byte
deriving DecidableEq, Repr

/-- Modelled from the spec: IPv4 byte-buffer constructor, failing exactly
when the buffer is shorter than the 20-byte minimum header. -/
def ipFromBytes (b : List Byte) : Option IP :=
  if b.length < 20 then none else some ⟨b⟩

/-- Modelled from the spec: the LLC PDU implementation is not under src/.
The spec gives no LLC minimum size; the IEEE 802.2 fixed header (DSAP,
SSAP, control) is 3 bytes. -/
structure LLC where
  bytes : List Byte
deriving DecidableEq, Repr

/-- Modelled from the spec: LLC byte-buffer constructor, failing exactly
when the buffer is shorter than its 3-byte fixed header. -/
def llcFromBytes (b : List Byte) : Option LLC :=
  if b.length < 3 then none else some ⟨b⟩

/-- The inner PDU attached by the Loopback byte-buffer constructor.  The
RawPDU branch holds the residual bytes verbatim; per the spec the catch-all
raw body never fails. -/
inductive InnerPDU where
  | ip (p : IP)
  | llc (p : LLC)
  | raw (payload : List Byte)
deriving DecidableEq, Repr

/-- The Loopback (DLT_NULL) PDU: a 4-byte host-order address family plus an
optional inner PDU. -/
structure Loopback where
  family : Nat
  inner : Option InnerPDU
deriving DecidableEq, Repr

/-- Embedding of `Loopback::Loopback(const uint8_t*, uint32_t)` from
`src/loopback.cpp` lines 54-74.  The constructor throws when
`total_sz < sizeof(_family)`, loads the family with an unconverted 4-byte
read, and when residual bytes remain it builds the inner PDU selected by
the family.  There is no try/catch around the inner constructors, so a
failing inner constructor makes the whole construction fail (C++ exception
propagation), which the embedding renders as `none`. -/
def loopbackFromBytes (B : List Byte) : Option Loopback :=
  if B.length < 4 then none
  else
    let fam := fromLE (B.take 4)
    let rest := B.drop 4
    if rest.length ≠ 0 then
      if fam = PF_INET then
        match ipFromBytes rest with
        | some p => some { family := fam, inner := some (InnerPDU.ip p) }
        | none => none
      else if fam = PF_LLC then
        match llcFromBytes rest with
        | some p => some { family := fam, inner := some (InnerPDU.llc p) }
        | none => none
      else some { family := fam, inner := some (InnerPDU.raw rest) }
    else some { family := fam, inner := none }

/-- Embedding of `Loopback::write_serialization` from `src/loopback.cpp`
lines 84-88: a single unconverted 4-byte store of `_family` at the start of
the buffer.  The `parent` argument is accepted and, as in the source where
the parameter is unnamed, never used. -/
def loopbackWrite (pdu : Loopback) (buf : List Byte) (_parent : Option Loopback) :
    List Byte :=
  storeLE buf 0 pdu.family 4

/-! ### DHCP (from the class header in src/unnamed/part_000)

The DHCP option list and the generic scalar search template are declared in
the header; `search_option` and `write_serialization` have no body under
src/ and are modelled from the spec where noted. -/

/-- A DHCP option: `(option, length, value)` triple, with the value bytes
owned by the containing PDU (struct DHCPOption in the header). -/
structure DHCPOption where
  code : Byte
  length : Byte
  value : List Byte
deriving DecidableEq, Repr

/-- The DHCP PDU state relevant to the claims: its option list, which
preserves insertion order (std::list _options in the header). -/
structure DHCP where
  options : List DHCPOption
deriving DecidableEq, Repr

/-- The PDU kind discriminator (PDU::PDUType). -/
inductive PDUType where
  | RAW
  | ETHERNET_II
  | LLC_T
  | IP_T
  | ARP
  | TCP
  | UDP
  | DHCP_T
  | DOT11
  | LOOPBACK
deriving DecidableEq, Repr

/-- Embedding of `DHCP::pdu_type()` from the header, line 333: it returns
`PDU::UDP`, not a distinct DHCP tag. -/
def DHCP.pdu_type (_ : DHCP) : PDUType := PDUType.UDP

/-- A PDU in a chain, as seen by the find-by-kind search: either a DHCP
instance or some other PDU known only by its kind tag. -/
inductive ChainPDU where
  | dhcpPdu (d : DHCP)
  | otherPdu (t : PDUType)
deriving DecidableEq, Repr

/-- The kind tag a chain element reports to the find-by-kind search. -/
def ChainPDU.pduType : ChainPDU → PDUType
  | .dhcpPdu d => d.pdu_type
  | .otherPdu t => t

/-- Modelled from the spec: `find<T>()` walks the chain and returns the
first PDU whose kind matches; its implementation is not under src/. -/
def findByKind (t : PDUType) (chain : List ChainPDU) : Option ChainPDU :=
  chain.find? (fun p => p.pduType == t)

/-- Modelled from the spec: `DHCP::search_option` has no body under src/;
per the spec it is a linear first-match search returning the option with
the given code of lowest index, or null. -/
def DHCP.search_option (d : DHCP) (c : Byte) : Option DHCPOption :=
  d.options.find? (fun o => o.code == c)

/-- Embedding of the template `DHCP::generic_search<T>` from the header,
lines 354-361: look up the first option with the given code; succeed and
read `sizeof(T)` bytes of its value exactly when that option exists and its
length field equals `sizeof(T)`. -/
def DHCP.generic_search (d : DHCP) (szT : Nat) (c : Byte) : Option (List Byte) :=
  match d.search_option c with
  | some o => if o.length.val = szT then some (o.value.take szT) else none
  | none => none

/-- On-wire image of one DHCP option: code byte, length byte, value. -/
def writeOption (o : DHCPOption) : List Byte :=
  o.code :: o.length :: o.value

/-- Modelled from the spec: `DHCP::write_serialization` has no body under
src/; per the spec (and the class doc comment) the options area is written
in insertion order and the end option, the single byte 255, is appended
automatically at the end of the option list, exactly once. -/
def writeOptionsArea : List DHCPOption → List Byte
  | [] => [(255 : Byte)]
  | o :: rest => writeOption o ++ writeOptionsArea rest

/-- The options area a DHCP PDU serializes after its fixed BOOTP header and
magic cookie. -/
def DHCP.write_options (d : DHCP) : List Byte :=
  writeOptionsArea d.options

/-! ### 802.11 beacon (modelled from the spec)

The Dot11Beacon implementation is not under src/; only its test file is.
The spec fixes the layout: a 24-byte management header (frame control,
duration, three 6-byte addresses, sequence control), then the beacon fixed
parameters (8-byte timestamp, 2-byte interval, 2-byte capabilities), all
little-endian, followed by a tagged-element trailer of (tag, length,
value) triples with no end sentinel, terminated by buffer exhaustion; a
declared length exceeding the remaining buffer fails the parse. -/

/-- An 802.11 tagged element: `(tag, length, value)`. -/
structure TaggedOption where
  tag : Byte
  length : Byte
  value : List Byte
deriving DecidableEq, Repr

/-- Modelled from the spec: parse the tagged-element trailer.  Each step
checks the declared length against the remaining buffer and fails on
excess; a lone trailing byte cannot form a (tag, length) pair and fails.
The fuel argument (instantiated with the buffer length) makes the
recursion structural and hence computable by the kernel. -/
def parseTags (fuel : Nat) (bs : List Byte) : Option (List TaggedOption) :=
  match fuel, bs with
  | _, [] => some []
  | 0, _ :: _ => none
  | _ + 1, [_] => none
  | fuel + 1, t :: l :: rest =>
      if l.val ≤ rest.length then
        (parseTags fuel (rest.drop l.val)).map
          (fun tags => ⟨t, l, rest.take l.val⟩ :: tags)
      else none

/-- Modelled from the spec: serialize tagged elements in insertion order
with no end sentinel. -/
def serializeTags : List TaggedOption → List Byte
  | [] => []
  | o :: rest => o.tag :: o.length :: (o.value ++ serializeTags rest)

/-- The Dot11Beacon fields, as decoded typed records per the spec. -/
structure Dot11Beacon where
  frame_control : Nat
  duration_id : Nat
  addr1 : List Byte
  addr2 : List Byte
  addr3 : List Byte
  seq_control : Nat
  timestamp : Nat
  interval : Nat
  capabilities : Nat
  options : List TaggedOption
deriving DecidableEq, Repr

/-- The sub-buffer of `B` starting at `off` with `n` bytes. -/
def slice (B : List Byte) (off n : Nat) : List Byte :=
  (B.drop off).take n

/-- Modelled from the spec: the Dot11Beacon byte-buffer constructor.  It
needs the 24-byte management header plus the 12 bytes of beacon fixed
parameters, then parses the tagged-element trailer; a malformed trailer
fails the construction. -/
def dot11BeaconFromBytes (B : List Byte) : Option Dot11Beacon :=
  if B.length < 36 then none
  else
    (parseTags (B.drop 36).length (B.drop 36)).map fun tags =>
      { frame_control := fromLE (slice B 0 2)
        duration_id := fromLE (slice B 2 2)
        addr1 := slice B 4 6
        addr2 := slice B 10 6
        addr3 := slice B 16 6
        seq_control := fromLE (slice B 22 2)
        timestamp := fromLE (slice B 24 8)
        interval := fromLE (slice B 32 2)
        capabilities := fromLE (slice B 34 2)
        options := tags }

/-- Modelled from the spec: Dot11Beacon serialization writes the fixed
fields little-endian in layout order, then the tagged elements in stored
order. -/
def dot11BeaconSerialize (p : Dot11Beacon) : List Byte :=
  toLE p.frame_control 2 ++ toLE p.duration_id 2 ++
  p.addr1 ++ p.addr2 ++ p.addr3 ++
  toLE p.seq_control 2 ++ toLE p.timestamp 8 ++
  toLE p.interval 2 ++ toLE p.capabilities 2 ++
  serializeTags p.options

/-- The 36-byte beacon frame from `tests/src/dot11/beacon.cpp`
(expected_packet). -/
def expectedPacket : List Byte :=
  [0x81, 0x01, 0x4F, 0x23, 0x00, 0x01, 0x02, 0x03, 0x04,
   0x05, 0x01, 0x02, 0x03, 0x04, 0x05, 0x06, 0x02,
   0x03, 0x04, 0x05, 0x06, 0x07, 0x00, 0x00, 0xfa,
   0x01, 0x93, 0x28, 0x41, 0x23, 0xad, 0x1f, 0xfa, 0x14,
   0x95, 0x20]

/-- The typed record the test beacon decodes to: timestamp
0x1fad2341289301fa, interval 0x14fa, capabilities 0x2095. -/
def expectedBeacon : Dot11Beacon :=
  { frame_control := 0x0181
    duration_id := 0x234F
    addr1 := [0x00, 0x01, 0x02, 0x03, 0x04, 0x05]
    addr2 := [0x01, 0x02, 0x03, 0x04, 0x05, 0x06]
    addr3 := [0x02, 0x03, 0x04, 0x05, 0x06, 0x07]
    seq_control := 0
    timestamp := 0x1fad2341289301fa
    interval := 0x14fa
    capabilities := 0x2095
    options := [] }

/-- A concrete DHCP instance with two options of code 53 and different
lengths, exercising the first-match rule of the option search. -/
def dhcpSample : DHCP :=
  { options := [⟨53, 1, [3]⟩, ⟨53, 4, [1, 2, 3, 4]⟩] }

/-! ### Byte primitive lemmas -/

theorem toLE_length (v n : Nat) : (toLE v n).length = n := by
  induction n generalizing v with
  | zero => rfl
  | succ n ih => simp [toLE, ih]

theorem toLE_fromLE (bs : List Byte) : toLE (fromLE bs) bs.length = bs := by
  induction bs with
  | nil => rfl
  | cons b rest ih =>
    show toLE (b.val + 256 * fromLE rest) (rest.length + 1) = b :: rest
    simp only [toLE]
    refine List.cons_eq_cons.mpr ⟨?_, ?_⟩
    · exact Fin.ext (by
        simp [Nat.add_mul_mod_self_left, Nat.mod_eq_of_lt b.isLt])
    · rw [Nat.add_mul_div_left _ _ (by norm_num : 0 < 256),
        Nat.div_eq_of_lt b.isLt]
      simpa using ih

theorem storeLE_cons (x : Byte) (l : List Byte) (pos v n : Nat) :
    storeLE (x :: l) (pos + 1) v n = x :: storeLE l pos v n := by
  induction n generalizing x l pos v with
  | zero => rfl
  | succ n ih =>
    show storeLE ((x :: l).set (pos + 1) _) (pos + 2) (v / 256) n =
      x :: storeLE (l.set pos _) (pos + 1) (v / 256) n
    rw [List.set_cons_succ]
    exact ih _ _ _ _

theorem storeLE_zero (l : List Byte) (v n : Nat) (h : n ≤ l.length) :
    storeLE l 0 v n = toLE v n ++ l.drop n := by
  induction n generalizing l v with
  | zero => simp [storeLE, toLE]
  | succ n ih =>
    match l with
    | [] => simp at h
    | x :: l₂ =>
      show storeLE ((x :: l₂).set 0 _) 1 (v / 256) n = toLE v (n + 1) ++ l₂.drop n
      rw [List.set_cons_zero, storeLE_cons,
        ih l₂ (v / 256) (by simpa using h)]
      simp [toLE]

theorem slice_length (B : List Byte) (off n : Nat) (h : off + n ≤ B.length) :
    (slice B off n).length = n := by
  simp only [slice, List.length_take, List.length_drop]
  omega

theorem slice_append_drop (B : List Byte) (off n : Nat) :
    slice B off n ++ B.drop (off + n) = B.drop off := by
  rw [slice, ← List.drop_drop, List.take_append_drop]

theorem serializeTags_parseTags (fuel : Nat) :
    ∀ (bs : List Byte) (tags : List TaggedOption),
      parseTags fuel bs = some tags → serializeTags tags = bs := by
  induction fuel with
  | zero =>
    intro bs tags h
    match bs with
    | [] =>
      simp only [parseTags, Option.some.injEq] at h
      subst h; rfl
    | b :: rest => simp [parseTags] at h
  | succ fuel ih =>
    intro bs tags h
    match bs with
    | [] =>
      simp only [parseTags, Option.some.injEq] at h
      subst h; rfl
    | [b] => simp [parseTags] at h
    | t :: l :: rest =>
      simp only [parseTags] at h
      split at h
      · rename_i hle
        cases hp : parseTags fuel (rest.drop l.val) with
        | none => rw [hp] at h; simp at h
        | some tags₂ =>
          rw [hp] at h
          simp only [Option.map_some', Option.some.injEq] at h
          subst h
          simp only [serializeTags, List.cons.injEq, true_and]
          rw [ih _ _ hp, List.take_append_drop]
      · simp at h

/-! ### Loopback constructor branch lemmas -/

theorem ipFromBytes_none_iff (b : List Byte) :
    ipFromBytes b = none ↔ b.length < 20 := by
  by_cases h : b.length < 20 <;> simp [ipFromBytes, h]

theorem llcFromBytes_none_iff (b : List Byte) :
    llcFromBytes b = none ↔ b.length < 3 := by
  by_cases h : b.length < 3 <;> simp [llcFromBytes, h]

theorem lfb_short {B : List Byte} (h : B.length < 4) :
    loopbackFromBytes B = none := by
  simp [loopbackFromBytes, h]

theorem lfb_exact {B : List Byte} (h : B.length = 4) :
    loopbackFromBytes B = some { family := fromLE (B.take 4), inner := none } := by
  have h1 : ¬ B.length < 4 := by omega
  have h2 : (B.drop 4).length = 0 := by simp [List.length_drop]; omega
  simp [loopbackFromBytes, h1, h2]

theorem lfb_inet {B : List Byte} (h4 : 4 < B.length)
    (hf : fromLE (B.take 4) = PF_INET) :
    loopbackFromBytes B =
      (ipFromBytes (B.drop 4)).map
        (fun p => { family := fromLE (B.take 4), inner := some (InnerPDU.ip p) }) := by
  have h1 : ¬ B.length < 4 := by omega
  have h2 : B.length - 4 ≠ 0 := by omega
  cases hip : ipFromBytes (B.drop 4) with
  | none => simp [loopbackFromBytes, h1, h2, hf, hip]
  | some p => simp [loopbackFromBytes, h1, h2, hf, hip]

theorem lfb_llc {B : List Byte} (h4 : 4 < B.length)
    (hf : fromLE (B.take 4) = PF_LLC) :
    loopbackFromBytes B =
      (llcFromBytes (B.drop 4)).map
        (fun p => { family := fromLE (B.take 4), inner := some (InnerPDU.llc p) }) := by
  have h1 : ¬ B.length < 4 := by omega
  have h2 : B.length - 4 ≠ 0 := by omega
  have hfi : PF_LLC ≠ PF_INET := by decide
  cases hip : llcFromBytes (B.drop 4) with
  | none => simp [loopbackFromBytes, h1, h2, hf, hfi, hip]
  | some p => simp [loopbackFromBytes, h1, h2, hf, hfi, hip]

theorem lfb_raw {B : List Byte} (h4 : 4 < B.length)
    (hi : fromLE (B.take 4) ≠ PF_INET) (hl : fromLE (B.take 4) ≠ PF_LLC) :
    loopbackFromBytes B =
      some { family := fromLE (B.take 4), inner := some (InnerPDU.raw (B.drop 4)) } := by
  have h1 : ¬ B.length < 4 := by omega
  have h2 : B.length - 4 ≠ 0 := by omega
  simp [loopbackFromBytes, h1, h2, hi, hl]

theorem lfb_family {B : List Byte} {pdu : Loopback}
    (hs : loopbackFromBytes B = some pdu) : pdu.family = fromLE (B.take 4) := by
  by_cases h4 : B.length < 4
  · rw [lfb_short h4] at hs; cases hs
  by_cases he : B.length = 4
  · rw [lfb_exact he] at hs
    cases hs; rfl
  have hgt : 4 < B.length := by omega
  by_cases hi : fromLE (B.take 4) = PF_INET
  · rw [lfb_inet hgt hi] at hs
    cases hip : ipFromBytes (B.drop 4) with
    | none => rw [hip] at hs; cases hs
    | some p => rw [hip] at hs; cases hs; rfl
  by_cases hl : fromLE (B.take 4) = PF_LLC
  · rw [lfb_llc hgt hl] at hs
    cases hip : llcFromBytes (B.drop 4) with
    | none => rw [hip] at hs; cases hs
    | some p => rw [hip] at hs; cases hs; rfl
  · rw [lfb_raw hgt hi hl] at hs
    cases hs; rfl

theorem lfb_length_ge {B : List Byte} {pdu : Loopback}
    (hs : loopbackFromBytes B = some pdu) : 4 ≤ B.length := by
  by_cases h4 : B.length < 4
  · rw [lfb_short h4] at hs; cases hs
  · omega

/-! ### Claim theorems: Loopback -/

/-- C2 (amended): the Loopback byte-buffer constructor fails due to its own
header check exactly when `total_sz < 4`, but for longer buffers it can
also fail when the family selects an inner constructor (IP or LLC) that
rejects the residual; whenever it succeeds, the family field is the
host-order value of the first 4 bytes of the buffer. -/
theorem loopback_buffer_acceptance (B : List Byte) :
    (loopbackFromBytes B = none ↔
      (B.length < 4 ∨
        (4 < B.length ∧
          ((fromLE (B.take 4) = PF_INET ∧ B.length < 24) ∨
           (fromLE (B.take 4) = PF_LLC ∧ B.length < 7)))))
    ∧ (∀ pdu, loopbackFromBytes B = some pdu →
        pdu.family = fromLE (B.take 4)) := by
  constructor
  · constructor
    · intro hnone
      by_cases h4 : B.length < 4
      · exact Or.inl h4
      right
      by_cases he : B.length = 4
      · rw [lfb_exact he] at hnone; cases hnone
      have hgt : 4 < B.length := by omega
      refine ⟨hgt, ?_⟩
      by_cases hi : fromLE (B.take 4) = PF_INET
      · left
        refine ⟨hi, ?_⟩
        rw [lfb_inet hgt hi] at hnone
        cases hip : ipFromBytes (B.drop 4) with
        | some p => rw [hip] at hnone; simp at hnone
        | none =>
          have hlt := (ipFromBytes_none_iff _).mp hip
          simp only [List.length_drop] at hlt
          omega
      by_cases hl : fromLE (B.take 4) = PF_LLC
      · right
        refine ⟨hl, ?_⟩
        rw [lfb_llc hgt hl] at hnone
        cases hip : llcFromBytes (B.drop 4) with
        | some p => rw [hip] at hnone; simp at hnone
        | none =>
          have hlt := (llcFromBytes_none_iff _).mp hip
          simp only [List.length_drop] at hlt
          omega
      · rw [lfb_raw hgt hi hl] at hnone; cases hnone
    · intro h
      rcases h with h4 | ⟨hgt, ⟨hi, hlt⟩ | ⟨hl, hlt⟩⟩
      · exact lfb_short h4
      · rw [lfb_inet hgt hi,
          (ipFromBytes_none_iff _).mpr (by simp only [List.length_drop]; omega)]
        rfl
      · rw [lfb_llc hgt hl,
          (llcFromBytes_none_iff _).mpr (by simp only [List.length_drop]; omega)]
        rfl
  · intro pdu hs
    exact lfb_family hs

/-- C2 counterexample: the claim as stated is false.  The buffer
`02 00 00 00 AA` has 5 bytes (not below 4), yet construction fails: the
family selects the IPv4 inner constructor, which rejects the 1-byte
residual, and that failure propagates. -/
theorem loopback_c2_counterexample :
    loopbackFromBytes [2, 0, 0, 0, 170] = none ∧
    ¬ (([2, 0, 0, 0, 170] : List Byte).length < 4) := by
  decide

/-- C2 witness: concrete successful and failing instances of the amended
characterization. -/
theorem loopback_c2_witness :
    loopbackFromBytes [2, 0, 0, 0, 170] = none ∧
    Loopback.family { family := 2, inner := none } =
      fromLE (([2, 0, 0, 0] : List Byte).take 4) :=
  ⟨(loopback_buffer_acceptance [2, 0, 0, 0, 170]).1.mpr
      (Or.inr ⟨by decide, Or.inl ⟨by decide, by decide⟩⟩),
   (loopback_buffer_acceptance [2, 0, 0, 0]).2
      { family := 2, inner := none } (by decide)⟩

/-- C3 (amended): when the inner constructor selected by the family fails
on the residual bytes, the failure propagates: the Loopback byte-buffer
constructor itself fails and no PDU (with or without an inner) is
produced. -/
theorem loopback_inner_failure_propagates (B : List Byte) (h4 : 4 < B.length) :
    (fromLE (B.take 4) = PF_INET → ipFromBytes (B.drop 4) = none →
      loopbackFromBytes B = none)
    ∧ (fromLE (B.take 4) = PF_LLC → llcFromBytes (B.drop 4) = none →
      loopbackFromBytes B = none) := by
  constructor
  · intro hf hip
    rw [lfb_inet h4 hf, hip]
    rfl
  · intro hf hll
    rw [lfb_llc h4 hf, hll]
    rfl

/-- C3 counterexample: on `02 00 00 00 09 09` (family PF_INET, 2-byte
residual rejected by the IPv4 constructor) the claim predicts a Loopback
PDU with a null inner, but the constructor produces no PDU at all. -/
theorem loopback_c3_counterexample :
    loopbackFromBytes [2, 0, 0, 0, 9, 9] = none := by
  decide

/-- C3 witness: the LLC branch of the amended claim at a concrete buffer,
family PF_LLC with a 1-byte residual. -/
theorem loopback_c3_witness :
    loopbackFromBytes [26, 0, 0, 0, 5] = none :=
  (loopback_inner_failure_propagates [26, 0, 0, 0, 5] (by decide)).2
    (by decide) (by decide)

/-- C4 (amended): for every buffer of more than 4 bytes on which the
constructor succeeds, the inner PDU is built from the residual bytes after
the first 4 and chosen by the family: IPv4 for PF_INET, LLC for PF_LLC,
and a RawPDU holding exactly the residual for every other family; the
RawPDU branch always succeeds. -/
theorem loopback_inner_selection :
    (∀ (B : List Byte) (pdu : Loopback),
      loopbackFromBytes B = some pdu → 4 < B.length →
      ((fromLE (B.take 4) = PF_INET →
          ∃ p, ipFromBytes (B.drop 4) = some p ∧
            pdu.inner = some (InnerPDU.ip p))
       ∧ (fromLE (B.take 4) = PF_LLC →
          ∃ p, llcFromBytes (B.drop 4) = some p ∧
            pdu.inner = some (InnerPDU.llc p))
       ∧ (fromLE (B.take 4) ≠ PF_INET → fromLE (B.take 4) ≠ PF_LLC →
          pdu.inner = some (InnerPDU.raw (B.drop 4)))))
    ∧ (∀ B : List Byte, 4 < B.length → fromLE (B.take 4) ≠ PF_INET →
        fromLE (B.take 4) ≠ PF_LLC →
        loopbackFromBytes B =
          some { family := fromLE (B.take 4),
                 inner := some (InnerPDU.raw (B.drop 4)) }) := by
  constructor
  · intro B pdu hs hgt
    refine ⟨?_, ?_, ?_⟩
    · intro hf
      rw [lfb_inet hgt hf] at hs
      cases hip : ipFromBytes (B.drop 4) with
      | none => rw [hip] at hs; simp at hs
      | some p =>
        rw [hip] at hs
        simp only [Option.map_some', Option.some.injEq] at hs
        exact ⟨p, rfl, by rw [← hs]⟩
    · intro hf
      rw [lfb_llc hgt hf] at hs
      cases hip : llcFromBytes (B.drop 4) with
      | none => rw [hip] at hs; simp at hs
      | some p =>
        rw [hip] at hs
        simp only [Option.map_some', Option.some.injEq] at hs
        exact ⟨p, rfl, by rw [← hs]⟩
    · intro hi hl
      rw [lfb_raw hgt hi hl] at hs
      cases hs
      rfl
  · intro B hgt hi hl
    exact lfb_raw hgt hi hl

/-- C4 counterexample: on `02 00 00 00 01 02 03` (more than 4 bytes,
family PF_INET) the claim predicts an attached IPv4 inner PDU, but the
IPv4 constructor rejects the 3-byte residual and the whole construction
fails, so no inner PDU is attached. -/
theorem loopback_c4_counterexample :
    4 < (([2, 0, 0, 0, 1, 2, 3] : List Byte)).length ∧
    loopbackFromBytes [2, 0, 0, 0, 1, 2, 3] = none := by
  decide

/-- C4 witness: the unknown-family scenario from the spec, buffer
`FF FF FF FF 01 02 03`, yields inner RawPDU([01 02 03]). -/
theorem loopback_c4_witness :
    Loopback.inner
      { family := 4294967295, inner := some (InnerPDU.raw [1, 2, 3]) } =
      some (InnerPDU.raw (([255, 255, 255, 255, 1, 2, 3] : List Byte).drop 4)) :=
  (loopback_inner_selection.1 [255, 255, 255, 255, 1, 2, 3]
      { family := 4294967295, inner := some (InnerPDU.raw [1, 2, 3]) }
      (by decide) (by decide)).2.2 (by decide) (by decide)

/-- C5: the family field undergoes no byte-order conversion.  Whenever the
constructor accepts a buffer, re-serializing the family reproduces the
first 4 bytes of that buffer unchanged. -/
theorem loopback_family_byte_order (B : List Byte) (pdu : Loopback)
    (buf : List Byte) (parent : Option Loopback)
    (hs : loopbackFromBytes B = some pdu) (hbuf : 4 ≤ buf.length) :
    (loopbackWrite pdu buf parent).take 4 = B.take 4 := by
  have hfam := lfb_family hs
  have hlen := lfb_length_ge hs
  have htake : (B.take 4).length = 4 := by
    simp only [List.length_take]
    omega
  have hres := toLE_fromLE (B.take 4)
  rw [htake] at hres
  rw [loopbackWrite, storeLE_zero _ _ _ hbuf,
    List.take_left' (toLE_length _ 4), hfam, hres]

/-- C5 witness: parse `02 00 00 00` and re-serialize into a 5-byte scratch
buffer; the first 4 output bytes equal the first 4 input bytes. -/
theorem loopback_c5_witness :
    (loopbackWrite { family := 2, inner := none } [7, 7, 7, 7, 7] none).take 4 =
      ([2, 0, 0, 0] : List Byte).take 4 :=
  loopback_family_byte_order [2, 0, 0, 0] { family := 2, inner := none }
    [7, 7, 7, 7, 7] none (by decide) (by decide)

/-- C9: on a buffer of exactly 4 bytes the constructor succeeds with a
null inner PDU: no inner (not even an empty RawPDU) is built when the
residual after the family field is empty. -/
theorem loopback_exact_four (B : List Byte) (h : B.length = 4) :
    loopbackFromBytes B = some { family := fromLE B, inner := none } := by
  have := lfb_exact h
  rwa [List.take_of_length_le (by omega)] at this

/-- C9 witness: the 4-byte buffer `02 00 00 00`. -/
theorem loopback_c9_witness :
    loopbackFromBytes [2, 0, 0, 0] =
      some { family := fromLE [2, 0, 0, 0], inner := none } :=
  loopback_exact_four [2, 0, 0, 0] (by decide)

/-- C10: write_serialization stores exactly the 4 family bytes at the
start of the buffer, leaves every byte at offset 4 and beyond unchanged,
preserves the buffer length, and ignores its parent argument.  The
embedding is a pure function of the buffer, reflecting that the method
writes nothing but the buffer. -/
theorem loopback_write_frame (pdu : Loopback) (buf : List Byte)
    (parent : Option Loopback) (h : 4 ≤ buf.length) :
    (loopbackWrite pdu buf parent).take 4 = toLE pdu.family 4
    ∧ (loopbackWrite pdu buf parent).drop 4 = buf.drop 4
    ∧ (loopbackWrite pdu buf parent).length = buf.length
    ∧ ∀ q : Option Loopback, loopbackWrite pdu buf parent = loopbackWrite pdu buf q := by
  refine ⟨?_, ?_, ?_, fun q => rfl⟩
  · rw [loopbackWrite, storeLE_zero _ _ _ h, List.take_left' (toLE_length _ 4)]
  · rw [loopbackWrite, storeLE_zero _ _ _ h, List.drop_left' (toLE_length _ 4)]
  · rw [loopbackWrite, storeLE_zero _ _ _ h]
    simp only [List.length_append, toLE_length, List.length_drop]
    omega

/-- C10 witness: a concrete 5-byte buffer; the byte past the header is
untouched. -/
theorem loopback_c10_witness :
    4 ≤ (([9, 9, 9, 9, 5] : List Byte)).length ∧
    (loopbackWrite { family := 2, inner := none } [9, 9, 9, 9, 5] none).drop 4 =
      ([9, 9, 9, 9, 5] : List Byte).drop 4 :=
  ⟨by decide,
   (loopback_write_frame { family := 2, inner := none } [9, 9, 9, 9, 5] none
      (by decide)).2.1⟩

/-! ### Claim theorems: DHCP -/

/-- C6: the serialized DHCP options area is the options in insertion
order, each as code, length, value, followed by exactly one END sentinel
byte (code 255), however many options were added. -/
theorem dhcp_options_area_layout (d : DHCP) :
    d.write_options = (d.options.map writeOption).flatten ++ [(255 : Byte)] := by
  obtain ⟨opts⟩ := d
  show writeOptionsArea opts = (opts.map writeOption).flatten ++ [(255 : Byte)]
  induction opts with
  | nil => rfl
  | cons o rest ih => simp [writeOptionsArea, ih]

/-- C7: DHCP reports the UDP kind tag, not a distinct DHCP tag, so a
find-by-kind search for UDP locates a chain element that is a DHCP PDU. -/
theorem dhcp_pdu_type_is_udp :
    (∀ d : DHCP, d.pdu_type = PDUType.UDP)
    ∧ (∀ (chain : List ChainPDU) (d : DHCP),
        ChainPDU.dhcpPdu d ∈ chain →
        (findByKind PDUType.UDP chain).isSome = true) := by
  refine ⟨fun d => rfl, ?_⟩
  intro chain d hmem
  rw [findByKind, List.find?_isSome]
  exact ⟨ChainPDU.dhcpPdu d, hmem, by
    simp [ChainPDU.pduType, DHCP.pdu_type]⟩

/-- C7 witness: a one-element chain holding a DHCP PDU is located by a
search for the UDP kind. -/
theorem dhcp_c7_witness :
    ChainPDU.dhcpPdu ⟨[]⟩ ∈ [ChainPDU.dhcpPdu ⟨[]⟩] ∧
    (findByKind PDUType.UDP [ChainPDU.dhcpPdu ⟨[]⟩]).isSome = true :=
  ⟨List.mem_singleton.mpr rfl,
   dhcp_pdu_type_is_udp.2 [ChainPDU.dhcpPdu ⟨[]⟩] ⟨[]⟩
     (List.mem_singleton.mpr rfl)⟩

/-- C8: the generic scalar search succeeds with the value bytes of the
first option carrying the requested code exactly when that option exists
and its length field equals `sizeof(T)`; it fails when no option has the
code, and also when the first option with the code has a different length
(later duplicates are never consulted).  The underlying search returns the
option with the requested code of lowest index, or null when the code is
absent. -/
theorem dhcp_generic_search_spec (d : DHCP) (szT : Nat) (c : Byte) :
    (∀ v, d.generic_search szT c = some v ↔
      ∃ o, d.search_option c = some o ∧ o.length.val = szT ∧
        v = o.value.take szT)
    ∧ (d.search_option c = none ↔ ∀ o ∈ d.options, o.code ≠ c)
    ∧ (∀ o, d.search_option c = some o → o ∈ d.options ∧ o.code = c)
    ∧ (∀ o, d.search_option c = some o → o.length.val ≠ szT →
        d.generic_search szT c = none) := by
  refine ⟨?_, ?_, ?_, ?_⟩
  · intro v
    cases hso : d.search_option c with
    | none => simp [DHCP.generic_search, hso]
    | some o =>
      have hg : d.generic_search szT c =
          if o.length.val = szT then some (o.value.take szT) else none := by
        unfold DHCP.generic_search
        rw [hso]
      by_cases hl : o.length.val = szT
      · rw [hg, if_pos hl]
        simp only [Option.some.injEq]
        constructor
        · intro hv
          exact ⟨o, rfl, hl, hv.symm⟩
        · rintro ⟨o₂, ho₂, _, hv⟩
          cases ho₂
          exact hv.symm
      · rw [hg, if_neg hl]
        constructor
        · intro h
          cases h
        · rintro ⟨o₂, ho₂, hlen₂, _⟩
          cases ho₂
          exact absurd hlen₂ hl
  · simp [DHCP.search_option, List.find?_eq_none]
  · intro o hso
    refine ⟨List.mem_of_find?_eq_some hso, ?_⟩
    have := List.find?_some hso
    simpa using this
  · intro o hso hne
    have hg : d.generic_search szT c =
        if o.length.val = szT then some (o.value.take szT) else none := by
      unfold DHCP.generic_search
      rw [hso]
    rw [hg, if_neg hne]

/-- C8 witness: a DHCP instance with two options of code 53; the search is
first-match, so requesting size 1 succeeds with the first value and
requesting size 4 fails even though a later option with code 53 has
length 4. -/
theorem dhcp_c8_witness :
    dhcpSample.generic_search 1 53 = some [3] ∧
    dhcpSample.generic_search 4 53 = none :=
  ⟨((dhcp_generic_search_spec dhcpSample 1 53).1 [3]).mpr
      ⟨⟨53, 1, [3]⟩, by decide, by decide, by decide⟩,
   (dhcp_generic_search_spec dhcpSample 4 53).2.2.2
      ⟨53, 1, [3]⟩ (by decide) (by decide)⟩

/-! ### Claim theorems: 802.11 beacon round-trip -/

/-- C1: for every byte buffer the Dot11Beacon byte-buffer constructor
accepts, serializing the resulting PDU with no intervening mutation yields
a buffer byte-identical to the input (hence of the same length). -/
theorem dot11_beacon_roundtrip (B : List Byte) (pdu : Dot11Beacon)
    (h : dot11BeaconFromBytes B = some pdu) :
    dot11BeaconSerialize pdu = B := by
  unfold dot11BeaconFromBytes at h
  by_cases hlen : B.length < 36
  · rw [if_pos hlen] at h
    cases h
  rw [if_neg hlen] at h
  have h36 : 36 ≤ B.length := by omega
  cases hp : parseTags (B.drop 36).length (B.drop 36) with
  | none =>
    rw [hp] at h
    simp at h
  | some tags =>
    rw [hp] at h
    simp only [Option.map_some', Option.some.injEq] at h
    subst h
    have e0 : toLE (fromLE (slice B 0 2)) 2 = slice B 0 2 := by
      have hl := slice_length B 0 2 (by omega)
      have := toLE_fromLE (slice B 0 2)
      rwa [hl] at this
    have e2 : toLE (fromLE (slice B 2 2)) 2 = slice B 2 2 := by
      have hl := slice_length B 2 2 (by omega)
      have := toLE_fromLE (slice B 2 2)
      rwa [hl] at this
    have e22 : toLE (fromLE (slice B 22 2)) 2 = slice B 22 2 := by
      have hl := slice_length B 22 2 (by omega)
      have := toLE_fromLE (slice B 22 2)
      rwa [hl] at this
    have e24 : toLE (fromLE (slice B 24 8)) 8 = slice B 24 8 := by
      have hl := slice_length B 24 8 (by omega)
      have := toLE_fromLE (slice B 24 8)
      rwa [hl] at this
    have e32 : toLE (fromLE (slice B 32 2)) 2 = slice B 32 2 := by
      have hl := slice_length B 32 2 (by omega)
      have := toLE_fromLE (slice B 32 2)
      rwa [hl] at this
    have e34 : toLE (fromLE (slice B 34 2)) 2 = slice B 34 2 := by
      have hl := slice_length B 34 2 (by omega)
      have := toLE_fromLE (slice B 34 2)
      rwa [hl] at this
    have etags : serializeTags tags = B.drop 36 :=
      serializeTags_parseTags _ _ _ hp
    show toLE (fromLE (slice B 0 2)) 2 ++ toLE (fromLE (slice B 2 2)) 2 ++
      slice B 4 6 ++ slice B 10 6 ++ slice B 16 6 ++
      toLE (fromLE (slice B 22 2)) 2 ++ toLE (fromLE (slice B 24 8)) 8 ++
      toLE (fromLE (slice B 32 2)) 2 ++ toLE (fromLE (slice B 34 2)) 2 ++
      serializeTags tags = B
    rw [e0, e2, e22, e24, e32, e34, etags]
    simp only [List.append_assoc]
    rw [show slice B 34 2 ++ B.drop 36 = B.drop 34 from slice_append_drop B 34 2,
      show slice B 32 2 ++ B.drop 34 = B.drop 32 from slice_append_drop B 32 2,
      show slice B 24 8 ++ B.drop 32 = B.drop 24 from slice_append_drop B 24 8,
      show slice B 22 2 ++ B.drop 24 = B.drop 22 from slice_append_drop B 22 2,
      show slice B 16 6 ++ B.drop 22 = B.drop 16 from slice_append_drop B 16 6,
      show slice B 10 6 ++ B.drop 16 = B.drop 10 from slice_append_drop B 10 6,
      show slice B 4 6 ++ B.drop 10 = B.drop 4 from slice_append_drop B 4 6,
      show slice B 2 2 ++ B.drop 4 = B.drop 2 from slice_append_drop B 2 2,
      show slice B 0 2 ++ B.drop 2 = B.drop 0 from slice_append_drop B 0 2,
      List.drop_zero]

/-- C1 witness: the 36-byte reference beacon from the test file parses to
the expected typed record and re-serializes to the identical bytes. -/
theorem dot11_beacon_roundtrip_witness :
    dot11BeaconFromBytes expectedPacket = some expectedBeacon ∧
    dot11BeaconSerialize expectedBeacon = expectedPacket :=
  ⟨by decide,
   dot11_beacon_roundtrip expectedPacket expectedBeacon (by decide)⟩

end Tins
